import Mathlib

set_option maxHeartbeats 1000000

/-!
Verification development for the folder-name generator (`src/app.py`).

The program reads a tabular dataset, guesses which column plays which
semantic role (`guess_mappings`), synthesizes one folder name per record
from a user template (`processar_dados`), optionally sorts the records by
the start-date column (`df.sort_values`), validates a Windows/UNC target
path (`is_windows_abs_path` plus the caller's quote stripping) and creates
one directory per record inside a month-named bucket.

All string machinery is embedded over `List Char` with structural
recursion so that concrete inputs evaluate inside the kernel.  `Char.toLower`
style case folding is modelled for ASCII letters only: every non-ASCII
character is discarded anyway by the `[^a-z0-9]` filter of the source, so
the results agree on the inputs of interest.
-/

/-- The whitespace characters Python's bare `str.strip()` removes. -/
def espacos : List Char := [' ', '\t', '\n', '\x0b', '\x0c', '\r']

/-- Remove every leading character that belongs to `cs` (Python `lstrip`). -/
def lstrip (cs : List Char) : List Char → List Char
  | [] => []
  | a :: t => if cs.contains a then lstrip cs t else a :: t

/-- Remove every trailing character that belongs to `cs` (Python `rstrip`). -/
def rstrip (cs : List Char) : List Char → List Char
  | [] => []
  | a :: t =>
    match rstrip cs t with
    | [] => if cs.contains a then [] else [a]
    | b :: u => a :: b :: u

/-- Python `s.strip(chars)`: drop leading and trailing characters of the set. -/
def pyStrip (cs : List Char) (s : String) : String :=
  String.mk (lstrip cs (rstrip cs s.data))

/-- Python `s.strip()` (no argument): strip surrounding whitespace. -/
def pyTrim (s : String) : String := pyStrip espacos s

/-- ASCII lower-casing, as `str.lower` acts on ASCII letters. -/
def paraMinusculo (c : Char) : Char :=
  if 'A' ≤ c ∧ c ≤ 'Z' then Char.ofNat (c.toNat + 32) else c

/-- Does the character survive the `re.sub(r'[^a-z0-9]', '', ...)` filter? -/
def ehAlfaNum (c : Char) : Bool :=
  (decide ('a' ≤ c) && decide (c ≤ 'z')) || (decide ('0' ≤ c) && decide (c ≤ '9'))

/-- Column/keyword normalization of `guess_mappings`: lower-case then keep
only `[a-z0-9]`. -/
def normalizeName (s : String) : List Char :=
  (s.data.map paraMinusculo).filter ehAlfaNum

/-- Python's substring test `needle in hay` on character lists. -/
def contemSub (agulha : List Char) : List Char → Bool
  | [] => agulha.isEmpty
  | a :: t => agulha.isPrefixOf (a :: t) || contemSub agulha t

/-! ## PathValidator (`is_windows_abs_path` and the caller's cleaning) -/

/-- Is the character an ASCII letter (the `[a-zA-Z]` of the drive regex)? -/
def letraUnidade (c : Char) : Bool :=
  (decide ('a' ≤ c) && decide (c ≤ 'z')) || (decide ('A' ≤ c) && decide (c ≤ 'Z'))

/-- `re.match(r'^[a-zA-Z]:[\\/]', path)`: an ASCII letter, a colon, then a
backslash or slash. -/
def driveMatch : List Char → Bool
  | a :: b :: c :: _ => letraUnidade a && decide (b = ':') && (decide (c = '\\') || decide (c = '/'))
  | _ => false

/-- `path.startswith('\\\\')`: two leading backslashes (UNC). -/
def uncMatch : List Char → Bool
  | a :: b :: _ => decide (a = '\\') && decide (b = '\\')
  | _ => false

/-- `is_windows_abs_path` of the source: strip double quotes, then accept a
drive-letter-absolute or UNC shape. -/
def is_windows_abs_path (path : String) : Bool :=
  let p := pyStrip ['"'] path
  driveMatch p.data || uncMatch p.data

/-- The caller's cleaning of the pasted path:
`caminho_diretorio.strip().strip('"').strip("'")`. -/
def caminhoLimpo (s : String) : String :=
  pyStrip ['\''] (pyStrip ['"'] (pyTrim s))

/-- Validation as the program performs it on the raw pasted string. -/
def validaCaminho (s : String) : Bool :=
  is_windows_abs_path (caminhoLimpo s)

/-- Drop exactly one leading quote character, if present. -/
def tiraUmaAspaEsq : List Char → List Char
  | [] => []
  | a :: t => if a = '"' ∨ a = '\'' then t else a :: t

/-- Drop exactly one trailing quote character, if present. -/
def tiraUmaAspaDir (l : List Char) : List Char :=
  (tiraUmaAspaEsq l.reverse).reverse

/-- Modelled from the spec wording of PathValidator: strip surrounding
whitespace and ONE layer of leading/trailing quotes, then test the same
drive/UNC pattern.  Written only to compare with `validaCaminho`. -/
def validaCaminhoSpec (s : String) : Bool :=
  let t := tiraUmaAspaDir (tiraUmaAspaEsq (pyTrim s).data)
  driveMatch t || uncMatch t

/-! ## RoleInferencer (`guess_mappings`) -/

/-- The keyword table of `guess_mappings`, in source order. -/
def mappingKeywords : List (String × List String) :=
  [ ("data_inicio", ["data início", "datainicio", "data_inicio", "start date", "inicio", "começo"])
  , ("data_fim", ["data fim", "datafim", "data_fim", "end date", "fim", "término", "termino"])
  , ("condutor", ["condutor", "motorista", "driver", "nome", "operador"])
  , ("cpf", ["cpf"])
  , ("maquina", ["maquina", "máquina", "equipamento", "equipment", "veiculo", "viatura"]) ]

/-- Does some keyword of the role, once normalized, occur inside the
normalized column name?  (The inner `for keyword in keywords` loop.) -/
def roleMatches (kws : List String) (col : String) : Bool :=
  kws.any fun kw => contemSub (normalizeName kw) (normalizeName col)

/-- The per-role scan of `guess_mappings`: columns in dataset order
(outer loop), keywords in priority order (inner loop); the first column
with any matching keyword wins. -/
def guessRole (cols : List String) (kws : List String) : Option String :=
  match cols with
  | [] => none
  | col :: rest => if roleMatches kws col then some col else guessRole rest kws

/-- Modelled from the spec wording of RoleInferencer: keywords scanned in
priority order first and, for each keyword, columns in dataset order.
Written only to compare with `guessRole`. -/
def guessRoleSpec (cols : List String) (kws : List String) : Option String :=
  kws.findSome? fun kw =>
    cols.find? fun col => contemSub (normalizeName kw) (normalizeName col)

/-- The UI builds `mapeamento` from `guessed_map.get(key, 'N/A')`: a guessed
column becomes the selectbox default, a missing role stays "N/A". -/
def guessGet (cols : List String) (role : String) : String :=
  match (mappingKeywords.lookup role) with
  | some kws => (guessRole cols kws).getD "N/A"
  | none => "N/A"

/-! ## Data model -/

/-- A spreadsheet cell as the program meets it: a text cell or a boolean
cell (Excel TRUE/FALSE).  Both kinds occur in real sheets; a boolean start
cell makes both `pd.to_datetime` and mixed-column sorting fail, which is the
failure mode exercised below. -/
inductive Cell where
  | str (s : String)
  | boolv (b : Bool)
deriving DecidableEq

/-- One record: a mapping from column name to cell value. -/
abbrev Row := List (String × Cell)

/-- The confirmed role mapping (each field a column name or "N/A"). -/
structure Mapeamento where
  data_inicio : String
  data_fim : String
  condutor : String
  cpf : String
  maquina : String
deriving DecidableEq

/-- A parsed date-time (the fields `strftime` and `.month` read). -/
structure DataHora where
  ano : Nat
  mes : Nat
  dia : Nat
  hora : Nat
  minuto : Nat
  segundo : Nat
deriving DecidableEq

/-- One item of the user template: literal text or a `{PLACEHOLDER}`. -/
inductive TemplateItem where
  | lit (s : String)
  | ph (chave : String)
deriving DecidableEq

abbrev Template := List TemplateItem

/-- A generated item: the final name and the parsed start date (kept to
choose the month bucket later). -/
abbrev Item := String × Option DataHora

/-- `row[col]`: a missing column raises a `KeyError`. -/
def rowGet (row : Row) (col : String) : Except String Cell :=
  match row.lookup col with
  | some c => .ok c
  | none => .error ("KeyError: '" ++ col ++ "'")

/-! ## Parsing and formatting of date-times -/

/-- Split a character list on a separator character (Python `str.split(c)`). -/
def splitOnChar (c : Char) : List Char → List (List Char)
  | [] => [[]]
  | a :: t =>
    match splitOnChar c t with
    | [] => [[]]
    | h :: rs => if a = c then [] :: h :: rs else (a :: h) :: rs

/-- Decimal digits to a number; `none` on a non-digit. -/
def parseNatAux : List Char → Nat → Option Nat
  | [], acc => some acc
  | c :: t, acc =>
    if '0' ≤ c ∧ c ≤ '9' then parseNatAux t (acc * 10 + (c.toNat - '0'.toNat))
    else none

/-- A non-empty all-digit run as a number. -/
def parseNatL (l : List Char) : Option Nat :=
  match l with
  | [] => none
  | _ => parseNatAux l 0

/-- One `D/M/Y` date, day before month (`dayfirst=True`). -/
def parseData (l : List Char) : Option (Nat × Nat × Nat) :=
  match splitOnChar '/' l with
  | [a, b, c] => do
    let d ← parseNatL a
    let m ← parseNatL b
    let y ← parseNatL c
    if 1 ≤ d ∧ d ≤ 31 ∧ 1 ≤ m ∧ m ≤ 12 then some (d, m, y) else none
  | _ => none

/-- One `H:M:S` time of day. -/
def parseHora (l : List Char) : Option (Nat × Nat × Nat) :=
  match splitOnChar ':' l with
  | [a, b, c] => do
    let h ← parseNatL a
    let m ← parseNatL b
    let s ← parseNatL c
    if h ≤ 23 ∧ m ≤ 59 ∧ s ≤ 59 then some (h, m, s) else none
  | _ => none

/-- `pd.to_datetime(text, dayfirst=True)` modelled for the day-first numeric
formats `D/M/Y` and `D/M/Y H:M:S` the sheets use; anything else fails. -/
def parseDataHora (s : String) : Option DataHora :=
  match splitOnChar ' ' s.data with
  | [d] => do
    let (dd, mm, yy) ← parseData d
    some ⟨yy, mm, dd, 0, 0, 0⟩
  | [d, t] => do
    let (dd, mm, yy) ← parseData d
    let (h, mi, se) ← parseHora t
    some ⟨yy, mm, dd, h, mi, se⟩
  | _ => none

/-- `pd.to_datetime(cell, dayfirst=True)` on a cell: a boolean cell is
rejected by pandas with a `TypeError`. -/
def parseDT (c : Cell) : Except String DataHora :=
  match c with
  | .boolv _ => .error "TypeError: bool is not convertible to datetime"
  | .str s =>
    match parseDataHora s with
    | some dt => .ok dt
    | none => .error ("Unknown datetime string format: " ++ s)

/-- Python `str(cell)`. -/
def strCell : Cell → String
  | .str s => s
  | .boolv b => if b then "True" else "False"

/-- Two-digit zero padding (`%d`, `%m`, `%H`, `%M`, `%S`). -/
def pad2 (n : Nat) : String := if n < 10 then "0" ++ toString n else toString n

/-- Four-digit zero padding (`%Y`). -/
def pad4 (n : Nat) : String :=
  if n < 10 then "000" ++ toString n
  else if n < 100 then "00" ++ toString n
  else if n < 1000 then "0" ++ toString n
  else toString n

/-- `strftime('%d-%m-%Y')`. -/
def fmtData (dt : DataHora) : String :=
  pad2 dt.dia ++ "-" ++ pad2 dt.mes ++ "-" ++ pad4 dt.ano

/-- `strftime('%H-%M-%S')`. -/
def fmtHora (dt : DataHora) : String :=
  pad2 dt.hora ++ "-" ++ pad2 dt.minuto ++ "-" ++ pad2 dt.segundo

/-! ## NameSynthesizer (`processar_dados`) -/

/-- `template.format(**partes_nome)` over the pre-parsed template: a
placeholder not among the keys raises a `KeyError`. -/
def formatTemplate (partes : List (String × String)) : Template → Except String String
  | [] => .ok ""
  | .lit s :: rest => do
    let r ← formatTemplate partes rest
    .ok (s ++ r)
  | .ph k :: rest =>
    match partes.lookup k with
    | some v => do
      let r ← formatTemplate partes rest
      .ok (v ++ r)
    | none => .error ("KeyError: '" ++ k ++ "'")

/-- Collapse every run of two or more `c` into a single `c`
(`re.sub(r'[c]+', 'c', ...)`). -/
def collapseRuns (c : Char) : List Char → List Char
  | [] => []
  | a :: t =>
    match t with
    | [] => [a]
    | b :: _ => if a = c ∧ b = c then collapseRuns c t else a :: collapseRuns c t

/-- The characters `strip('_- ')` removes at both ends. -/
def separadores : List Char := ['_', '-', ' ']

/-- The three normalization steps applied to the substituted template:
collapse `_` runs, collapse `-` runs, strip `_`, `-` and space at the ends. -/
def normalizeNome (s : String) : String :=
  String.mk (lstrip separadores (rstrip separadores (collapseRuns '-' (collapseRuns '_' s.data))))

/-- Python `s.replace(' ', '-')` (single-character pattern). -/
def substituiEspacos (s : String) : String :=
  String.mk (s.data.map fun ch => if ch = ' ' then '-' else ch)

/-- The text kept by `str(...).split('.')[0]`: everything before the first
dot. -/
def antesDoPonto (s : String) : String :=
  match splitOnChar '.' s.data with
  | [] => ""
  | h :: _ => String.mk h

/-- The body of the per-record `try` block before normalization: build the
six parts, substitute them into the template, and return the raw name with
the parsed start date. -/
def processCore (m : Mapeamento) (t : Template) (row : Row) :
    Except String (String × Option DataHora) := do
  let (dataIni, horaIni, dtIni) ←
    if m.data_inicio ≠ "N/A" then do
      let c ← rowGet row m.data_inicio
      let dt ← parseDT c
      Except.ok (fmtData dt, fmtHora dt, some dt)
    else Except.ok ("", "", none)
  let horaFim ←
    if m.data_fim ≠ "N/A" then do
      let c ← rowGet row m.data_fim
      let dt ← parseDT c
      Except.ok (fmtHora dt)
    else Except.ok ""
  let condutor ←
    if m.condutor ≠ "N/A" then do
      let c ← rowGet row m.condutor
      Except.ok (substituiEspacos (pyTrim (strCell c)))
    else Except.ok ""
  let cpf ←
    if m.cpf ≠ "N/A" then do
      let c ← rowGet row m.cpf
      Except.ok (antesDoPonto (strCell c))
    else Except.ok ""
  let maquina ←
    if m.maquina ≠ "N/A" then do
      let c ← rowGet row m.maquina
      Except.ok (pyTrim (strCell c))
    else Except.ok ""
  let partes := [("DATA", dataIni), ("HORA_INICIO", horaIni), ("HORA_FIM", horaFim),
                 ("CONDUTOR", condutor), ("CPF", cpf), ("MAQUINA", maquina)]
  let bruto ← formatTemplate partes t
  Except.ok (bruto, dtIni)

/-- One record of the loop of `processar_dados`: the raw name is normalized
and paired with the start date; any failure in the `try` body becomes the
caught message. -/
def processRecord (m : Mapeamento) (t : Template) (row : Row) :
    Except String (String × Option DataHora) :=
  (processCore m t row).map fun p => (normalizeNome p.1, p.2)

/-- `f"Erro na linha {index + 2} da planilha: {e}"`. -/
def linhaErro (i : Nat) (e : String) : String :=
  "Erro na linha " ++ toString (i + 2) ++ " da planilha: " ++ e

/-- `processar_dados`: walk the (index, record) pairs in order; a successful
record appends an item, a failing record appends an error message carrying
its original index plus two. -/
def processar_dados (rows : List (Nat × Row)) (m : Mapeamento) (t : Template) :
    List Item × List String :=
  match rows with
  | [] => ([], [])
  | (i, row) :: rest =>
    let r := processar_dados rest m t
    match processRecord m t row with
    | .ok item => (item :: r.1, r.2)
    | .error e => (r.1, linhaErro i e :: r.2)

/-! ## Sorter (`df.sort_values(by=...)`) -/

def isStrCell : Cell → Bool
  | .str _ => true
  | .boolv _ => false

def isBoolCell : Cell → Bool
  | .str _ => false
  | .boolv _ => true

/-- Lexicographic comparison on character lists (Python string `<=`). -/
def charListLe : List Char → List Char → Bool
  | [], _ => true
  | _ :: _, [] => false
  | a :: as, b :: bs => if a < b then true else if b < a then false else charListLe as bs

/-- The raw-value comparison `sort_values` applies: strings
lexicographically, booleans as `False < True`.  Cells of different kinds are
never compared (the column is rejected first); the cross-kind clauses only
make the order total. -/
def cellLe : Cell → Cell → Bool
  | .boolv a, .boolv b => !a || b
  | .str a, .str b => charListLe a.data b.data
  | .boolv _, .str _ => true
  | .str _, .boolv _ => false

/-- Stable insertion of `a` into a sorted list. -/
def insSorted (le : α → α → Bool) (a : α) : List α → List α
  | [] => [a]
  | b :: t => if le a b then a :: b :: t else b :: insSorted le a t

/-- A stable sort (the model's stand-in for the numpy sort behind
`sort_values`; on distinct keys any ascending sort gives this order). -/
def ordena (le : α → α → Bool) : List α → List α
  | [] => []
  | a :: t => insSorted le a (ordena le t)

/-- Pull the sort column's cell out of every record, in order. -/
def taggRows (rows : List (Nat × Row)) (col : String) :
    Except String (List ((Nat × Row) × Cell)) :=
  match rows with
  | [] => .ok []
  | p :: rest =>
    match rowGet p.2 col with
    | .error e => .error e
    | .ok c =>
      match taggRows rest col with
      | .error e => .error e
      | .ok t => .ok ((p, c) :: t)

/-- `df.sort_values(by=col)`: order the records ascending by the raw cell
value of the column.  A column mixing text and boolean cells raises the
`TypeError` numpy produces when it compares them. -/
def sortValues (rows : List (Nat × Row)) (col : String) :
    Except String (List (Nat × Row)) :=
  match taggRows rows col with
  | .error e => .error e
  | .ok tagged =>
    if (tagged.any fun q => isStrCell q.2) && (tagged.any fun q => isBoolCell q.2) then
      .error "TypeError: '<' not supported between instances of 'str' and 'bool'"
    else
      .ok ((ordena (fun a b => cellLe a.2 b.2) tagged).map Prod.fst)

/-- What the generate-names button reports about ordering. -/
inductive ResultadoOrdenacao where
  | ordenado
  | falhaOrdenacao
  | semOrdenacao
deriving DecidableEq

/-- The branch of the generate button (lines 182-193 of the source): with a
bound start column, sort then process; if the sort raises, report an error
and produce EMPTY item and error lists; with no bound column, process the
records in input order after a warning. -/
def gerarNomes (df : List Row) (m : Mapeamento) (t : Template) :
    List Item × List String × ResultadoOrdenacao :=
  if m.data_inicio ≠ "N/A" then
    match sortValues df.enum m.data_inicio with
    | .ok dfOrd =>
      let r := processar_dados dfOrd m t
      (r.1, r.2, .ordenado)
    | .error _ => ([], [], .falhaOrdenacao)
  else
    let r := processar_dados df.enum m t
    (r.1, r.2, .semOrdenacao)

/-! ## DirectoryMaterializer -/

/-- The fixed month table with its default:
`meses.get(mes_numero, "Mes_Desconhecido")`. -/
def nomeMes (n : Nat) : String :=
  match n with
  | 1 => "01-Janeiro" | 2 => "02-Fevereiro" | 3 => "03-Março" | 4 => "04-Abril"
  | 5 => "05-Maio" | 6 => "06-Junho" | 7 => "07-Julho" | 8 => "08-Agosto"
  | 9 => "09-Setembro" | 10 => "10-Outubro" | 11 => "11-Novembro" | 12 => "12-Dezembro"
  | _ => "Mes_Desconhecido"

/-- Delete the filesystem-reserved characters
(`re.sub(r'[<>:"/\\|?*]', '', nome)`). -/
def reservados : List Char := ['<', '>', ':', '"', '/', '\\', '|', '?', '*']

def sanitizeNome (s : String) : String :=
  String.mk (s.data.filter fun ch => !reservados.contains ch)

/-- `os.path.join` under Windows separators (the target platform of the
program; the root never ends in a separator in the cases modelled). -/
def joinWin (a b : String) : String := a ++ "\\" ++ b

/-- The full directory path attempted for one dated item. -/
def caminhoItem (root nome : String) (dt : DataHora) : String :=
  joinWin (joinWin root (nomeMes dt.mes)) (sanitizeNome nome)

/-- The message for an item with no start date. -/
def msgSemData (nome : String) : String :=
  "Não foi possível criar '" ++ nome ++
    "': Data de início não fornecida para determinar o mês."

/-- The outcome of the creation loop: the success counter, the failure
messages and the directory paths handed to `os.makedirs`, in order.  The
filesystem calls themselves are modelled as succeeding (`exist_ok=True`
directory creation under a writable root). -/
structure RelatorioCriacao where
  pastasCriadas : Nat
  errosCriacao : List String
  pastasAlvo : List String
deriving DecidableEq

/-- The per-item creation loop (lines 247-262 of the source). -/
def materializar (root : String) : List Item → RelatorioCriacao
  | [] => ⟨0, [], []⟩
  | (nome, none) :: rest =>
    let r := materializar root rest
    ⟨r.pastasCriadas, msgSemData nome :: r.errosCriacao, r.pastasAlvo⟩
  | (nome, some dt) :: rest =>
    let r := materializar root rest
    ⟨r.pastasCriadas + 1, r.errosCriacao, caminhoItem root nome dt :: r.pastasAlvo⟩

/-- Does the list contain two adjacent copies of `c` (a run of length two
or more)? -/
def hasDoubled (c : Char) : List Char → Bool
  | [] => false
  | a :: t =>
    match t with
    | [] => false
    | b :: _ => (decide (a = c) && decide (b = c)) || hasDoubled c t

/-- A chronological key: later date-times get strictly larger keys. -/
def dataHoraChave (dt : DataHora) : Nat :=
  ((((dt.ano * 13 + dt.mes) * 32 + dt.dia) * 24 + dt.hora) * 60 + dt.minuto) * 60 + dt.segundo

/-! ## Concrete inputs used by the claims -/

instance {ε α : Type} [DecidableEq ε] [DecidableEq α] : DecidableEq (Except ε α) := fun a b =>
  match a, b with
  | .ok x, .ok y => if h : x = y then .isTrue (by rw [h]) else .isFalse (by simp [h])
  | .error x, .error y => if h : x = y then .isTrue (by rw [h]) else .isFalse (by simp [h])
  | .ok _, .error _ => .isFalse (by simp)
  | .error _, .ok _ => .isFalse (by simp)

/-- Columns of the end-to-end example of the spec. -/
def colunas7 : List String := ["Data Início", "Condutor", "CPF", "Máquina"]

/-- The single record of the end-to-end example. -/
def row7 : Row :=
  [ ("Data Início", .str "05/06/2024 08:30:00"), ("Condutor", .str "Jane Doe ")
  , ("CPF", .str "123.0"), ("Máquina", .str "Truck-1") ]

/-- The template `"{DATA}_{CONDUTOR}_{CPF}_{MAQUINA}"`, pre-parsed. -/
def template7 : Template :=
  [.ph "DATA", .lit "_", .ph "CONDUTOR", .lit "_", .ph "CPF", .lit "_", .ph "MAQUINA"]

/-- The mapping the UI derives from `guess_mappings` on the example columns. -/
def m7 : Mapeamento :=
  ⟨ guessGet colunas7 "data_inicio", guessGet colunas7 "data_fim"
  , guessGet colunas7 "condutor", guessGet colunas7 "cpf", guessGet colunas7 "maquina" ⟩

/-- The parsed start date of the example record. -/
def dt7 : DataHora := ⟨2024, 6, 5, 8, 30, 0⟩

/-- The keyword list of the `condutor` role, as in the source. -/
def condutorKeywords : List String := ["condutor", "motorista", "driver", "nome", "operador"]

/-- A two-record dataset whose start column mixes a boolean and a text
cell, so `sort_values` raises. -/
def dfMix : List Row :=
  [ [("Data Início", Cell.boolv true)]
  , [("Data Início", Cell.str "05/06/2024 08:30:00")] ]

/-- A mapping binding only the start column. -/
def mSo : Mapeamento := ⟨"Data Início", "N/A", "N/A", "N/A", "N/A"⟩

/-- Two string-dated records whose lexicographic order disagrees with
their chronological order. -/
def dfDatas : List Row :=
  [ [("Data Início", Cell.str "10/01/2024")]
  , [("Data Início", Cell.str "05/06/2024")] ]

/-- A mapping with every role unbound. -/
def mNA : Mapeamento := ⟨"N/A", "N/A", "N/A", "N/A", "N/A"⟩

/-! # Theorems -/

/-- C1 (counterexample).  On a dataset whose start column mixes a boolean
and a text cell, the sort raises; the code then produces EMPTY item and
error lists and reports the ordering failure, while processing the unsorted
records (as the claim says happens) would have produced one item and one
per-record error.  The claim as stated is therefore false. -/
theorem falhaOrdenacao_descarta_registros :
    gerarNomes dfMix mSo [.ph "DATA"] = ([], [], .falhaOrdenacao) ∧
    processar_dados dfMix.enum mSo [.ph "DATA"] =
      ([("05-06-2024", some dt7)],
       ["Erro na linha 2 da planilha: TypeError: bool is not convertible to datetime"]) ∧
    (gerarNomes dfMix mSo [.ph "DATA"]).1 ≠ (processar_dados dfMix.enum mSo [.ph "DATA"]).1 ∧
    (gerarNomes dfMix mSo [.ph "DATA"]).2.1 ≠ (processar_dados dfMix.enum mSo [.ph "DATA"]).2 := by
  decide

/-- C2 (counterexample).  With columns `["Nome", "Condutor"]`, scanning the
condutor keywords in priority order first would bind the role to
"Condutor" (matched by the first keyword), but the code scans columns
first and binds it to "Nome" (matched by the fourth keyword). -/
theorem guessRole_ordem_colunas_contraexemplo :
    guessRole ["Nome", "Condutor"] condutorKeywords = some "Nome" ∧
    guessRoleSpec ["Nome", "Condutor"] condutorKeywords = some "Condutor" ∧
    ("Nome" : String) ≠ "Condutor" := by
  decide

/-- C3 (counterexample).  `sort_values` compares the raw start cells as
strings: "05/06/2024" sorts before "10/01/2024", yet the parsed timestamps
order the other way (June 5 after January 10), so the produced order is not
ascending by parsed timestamp. -/
theorem sortValues_nao_parseia_datas :
    sortValues dfDatas.enum "Data Início" =
      .ok [(1, [("Data Início", Cell.str "05/06/2024")]),
           (0, [("Data Início", Cell.str "10/01/2024")])] ∧
    parseDT (Cell.str "05/06/2024") = .ok ⟨2024, 6, 5, 0, 0, 0⟩ ∧
    parseDT (Cell.str "10/01/2024") = .ok ⟨2024, 1, 10, 0, 0, 0⟩ ∧
    dataHoraChave ⟨2024, 1, 10, 0, 0, 0⟩ < dataHoraChave ⟨2024, 6, 5, 0, 0, 0⟩ := by
  decide

/-- C4 (counterexample).  An item whose month value is 13 is bucketed under
"Mes_Desconhecido" but its directory IS created, it IS counted as a
success, and no failure entry is recorded — contradicting the claim. -/
theorem mes_fora_faixa_conta_sucesso :
    (materializar "C:\\Out" [("X", some ⟨2024, 13, 1, 0, 0, 0⟩)]).pastasCriadas = 1 ∧
    (materializar "C:\\Out" [("X", some ⟨2024, 13, 1, 0, 0, 0⟩)]).errosCriacao = [] ∧
    (materializar "C:\\Out" [("X", some ⟨2024, 13, 1, 0, 0, 0⟩)]).pastasAlvo =
      ["C:\\Out\\Mes_Desconhecido\\X"] := by
  decide

/-- C6 (counterexample).  The template consisting of a single literal tab
(only known placeholders appear — none do) synthesizes to "\t": the final
strip removes only `_`, `-` and space, so a leading/trailing tab, a
whitespace character, survives. -/
theorem normalizacao_mantem_tab :
    processRecord mNA [.lit "\t"] [] = .ok ("\t", none) ∧
    (String.data "\t").getLast? = some '\t' ∧
    ('\t').isWhitespace = true := by
  decide

/-- C7 (counterexample).  The end-to-end example binds the four roles and
synthesizes exactly the claimed name, but the month bucket is the
Portuguese "06-Junho", so the created directory is not
`C:\Out\06-June\...` as the claim states. -/
theorem exemplo_e2e_junho_contraexemplo :
    m7 = ⟨"Data Início", "N/A", "Condutor", "CPF", "Máquina"⟩ ∧
    (gerarNomes [row7] m7 template7).1 = [("05-06-2024_Jane-Doe_123_Truck-1", some dt7)] ∧
    (materializar "C:\\Out" (gerarNomes [row7] m7 template7).1).pastasAlvo =
      ["C:\\Out\\06-Junho\\05-06-2024_Jane-Doe_123_Truck-1"] ∧
    (materializar "C:\\Out" (gerarNomes [row7] m7 template7).1).pastasAlvo ≠
      ["C:\\Out\\06-June\\05-06-2024_Jane-Doe_123_Truck-1"] := by
  decide

/-- C7 (amended).  End-to-end example with the month bucket the code
actually uses: inference binds start/operator/identifier/asset to the four
columns, synthesis yields `05-06-2024_Jane-Doe_123_Truck-1` with no errors,
the root `C:\Out` validates, and materialization creates exactly
`C:\Out\06-Junho\05-06-2024_Jane-Doe_123_Truck-1` (Portuguese month name). -/
theorem exemplo_e2e_junho :
    m7 = ⟨"Data Início", "N/A", "Condutor", "CPF", "Máquina"⟩ ∧
    (gerarNomes [row7] m7 template7).1 = [("05-06-2024_Jane-Doe_123_Truck-1", some dt7)] ∧
    (gerarNomes [row7] m7 template7).2.1 = [] ∧
    validaCaminho "C:\\Out" = true ∧
    materializar "C:\\Out" (gerarNomes [row7] m7 template7).1 =
      ⟨1, [], ["C:\\Out\\06-Junho\\05-06-2024_Jane-Doe_123_Truck-1"]⟩ := by
  decide

/-- C8 (counterexample).  The code strips EVERY leading/trailing quote, not
one layer: the doubly quoted `""C:\Reports""` is accepted by the code but
would be rejected after stripping a single layer of quotes, as the claim
describes. -/
theorem validaCaminho_camadas_aspas_contraexemplo :
    validaCaminho "\"\"C:\\Reports\"\"" = true ∧
    validaCaminhoSpec "\"\"C:\\Reports\"\"" = false := by
  decide

/-- C9 (confirmed).  A template made only of known placeholders and the
literal `_/_` synthesizes a name with no `_` or `-` runs, yet sanitization
deletes the `/` and the directory name actually created contains the run
`__`: the normalization guarantee does not survive materialization. -/
theorem sanitizacao_reintroduz_runs :
    processRecord m7 [.ph "DATA", .lit "_/_", .ph "CONDUTOR"] row7 =
      .ok ("05-06-2024_/_Jane-Doe", some dt7) ∧
    hasDoubled '_' (String.data "05-06-2024_/_Jane-Doe") = false ∧
    hasDoubled '-' (String.data "05-06-2024_/_Jane-Doe") = false ∧
    sanitizeNome "05-06-2024_/_Jane-Doe" = "05-06-2024__Jane-Doe" ∧
    hasDoubled '_' (String.data (sanitizeNome "05-06-2024_/_Jane-Doe")) = true ∧
    caminhoItem "C:\\Out" "05-06-2024_/_Jane-Doe" dt7 =
      "C:\\Out\\06-Junho\\05-06-2024__Jane-Doe" := by
  decide

/-- C10 (confirmed).  A name made only of reserved characters sanitizes to
the empty string; materialization then hands `os.makedirs` the month-bucket
path with a trailing separator (no item component), counts the item as a
success and records no failure. -/
theorem nome_reservado_vira_vazio_sucesso :
    sanitizeNome "?*" = "" ∧
    materializar "C:\\Out" [("?*", some ⟨2024, 6, 5, 8, 30, 0⟩)] =
      ⟨1, [], ["C:\\Out\\06-Junho\\"]⟩ ∧
    joinWin (joinWin "C:\\Out" (nomeMes 6)) "" = "C:\\Out\\06-Junho\\" := by
  decide

/-- Any month value outside 1..12 falls to the dictionary default. -/
theorem nomeMes_fora_faixa (n : Nat) (h : n = 0 ∨ 12 < n) : nomeMes n = "Mes_Desconhecido" := by
  rcases h with h | h
  · subst h; rfl
  · obtain ⟨k, rfl⟩ : ∃ k, n = k + 13 := ⟨n - 13, by omega⟩
    rfl

/-- The two output lists of `processar_dados`, each as a filterMap over the
input records. -/
theorem processar_dados_eq_filterMap (rows : List (Nat × Row)) (m : Mapeamento) (t : Template) :
    processar_dados rows m t =
      ( rows.filterMap fun p => (processRecord m t p.2).toOption
      , rows.filterMap fun p =>
          match processRecord m t p.2 with
          | .ok _ => none
          | .error e => some (linhaErro p.1 e) ) := by
  induction rows with
  | nil => rfl
  | cons p rest ih =>
    cases hp : processRecord m t p.2 with
    | ok item => simp [processar_dados, hp, ih, Except.toOption]
    | error e => simp [processar_dados, hp, ih, Except.toOption]

/-- Every record lands in exactly one of the two lists. -/
theorem processar_dados_comprimentos (rows : List (Nat × Row)) (m : Mapeamento) (t : Template) :
    (processar_dados rows m t).1.length + (processar_dados rows m t).2.length = rows.length := by
  induction rows with
  | nil => rfl
  | cons p rest ih =>
    cases hp : processRecord m t p.2 with
    | ok item => simp [processar_dados, hp]; omega
    | error e => simp [processar_dados, hp]; omega

/-- The item count is the count of records whose processing succeeds. -/
theorem processar_dados_conta_sucessos (rows : List (Nat × Row)) (m : Mapeamento) (t : Template) :
    (processar_dados rows m t).1.length =
      rows.countP (fun p => (processRecord m t p.2).toOption.isSome) := by
  induction rows with
  | nil => rfl
  | cons p rest ih =>
    cases hp : processRecord m t p.2 with
    | ok item => simp [processar_dados, hp, List.countP_cons, Except.toOption, ih]
    | error e => simp [processar_dados, hp, List.countP_cons, Except.toOption, ih]

/-- C5 (confirmed).  Synthesis maps each (index, record) pair to exactly one
output: the records whose processing succeeds yield the item list in order,
the records whose processing fails yield the error list in order, each error
carrying the record's original zero-based index plus two (its 1-based
spreadsheet row, offset one more for the header).  Consequently the two
lengths sum to the record count and the item count equals the count of
non-failing records. -/
theorem processar_dados_caracterizacao (rows : List (Nat × Row)) (m : Mapeamento) (t : Template) :
    processar_dados rows m t =
      ( rows.filterMap fun p => (processRecord m t p.2).toOption
      , rows.filterMap fun p =>
          match processRecord m t p.2 with
          | .ok _ => none
          | .error e => some (linhaErro p.1 e) ) ∧
    (processar_dados rows m t).1.length + (processar_dados rows m t).2.length = rows.length ∧
    (processar_dados rows m t).1.length =
      rows.countP (fun p => (processRecord m t p.2).toOption.isSome) :=
  ⟨processar_dados_eq_filterMap rows m t, processar_dados_comprimentos rows m t,
   processar_dados_conta_sucessos rows m t⟩

/-- C1 (amended).  When the start column is bound and sorting by it raises,
the generate step reports the ordering failure and produces empty item and
error lists: synthesis is skipped for every record of the dataset. -/
theorem gerarNomes_falha_ordenacao_vazio (df : List Row) (m : Mapeamento) (t : Template)
    (e : String) (hm : m.data_inicio ≠ "N/A")
    (hs : sortValues df.enum m.data_inicio = .error e) :
    gerarNomes df m t = ([], [], .falhaOrdenacao) := by
  unfold gerarNomes
  rw [if_pos hm, hs]

theorem gerarNomes_falha_ordenacao_vazio_witness :
    gerarNomes dfMix mSo [.ph "DATA"] = ([], [], .falhaOrdenacao) :=
  gerarNomes_falha_ordenacao_vazio dfMix mSo [.ph "DATA"]
    "TypeError: '<' not supported between instances of 'str' and 'bool'"
    (by decide) (by decide)

/-- C4 (amended).  Materialization treats the two degenerate cases
differently: an item with no start date contributes a failure message and no
directory and is not counted, while an item whose month value lies outside
1..12 is bucketed under "Mes_Desconhecido", its directory IS attempted and
it IS counted as a success with no failure entry.  The three components of
the report are characterized for every item list. -/
theorem materializar_sem_data_e_mes_desconhecido (root : String) (items : List Item) :
    (materializar root items).pastasCriadas =
      items.countP (fun it => it.2.isSome) ∧
    (materializar root items).errosCriacao =
      (items.filterMap fun it =>
        match it.2 with
        | none => some (msgSemData it.1)
        | some _ => none) ∧
    (materializar root items).pastasAlvo =
      (items.filterMap fun it => it.2.map fun dt => caminhoItem root it.1 dt) ∧
    (∀ nome : String, ∀ dt : DataHora, dt.mes = 0 ∨ 12 < dt.mes →
      caminhoItem root nome dt = joinWin (joinWin root "Mes_Desconhecido") (sanitizeNome nome)) := by
  refine ⟨?_, ?_, ?_, ?_⟩
  · induction items with
    | nil => rfl
    | cons it rest ih =>
      obtain ⟨nome, dtO⟩ := it
      cases dtO with
      | none => simp [materializar, List.countP_cons, ih]
      | some dt => simp [materializar, List.countP_cons, ih]
  · induction items with
    | nil => rfl
    | cons it rest ih =>
      obtain ⟨nome, dtO⟩ := it
      cases dtO with
      | none => simp [materializar, ih]
      | some dt => simp [materializar, ih]
  · induction items with
    | nil => rfl
    | cons it rest ih =>
      obtain ⟨nome, dtO⟩ := it
      cases dtO with
      | none => simp [materializar, ih]
      | some dt => simp [materializar, ih]
  · intro nome dt h
    unfold caminhoItem
    rw [nomeMes_fora_faixa dt.mes h]

/-- The boolean prefix test, as an equation with an explicit remainder. -/
theorem isPrefixOf_eq_true_iff {a b : List Char} :
    a.isPrefixOf b = true ↔ ∃ r, a ++ r = b :=
  List.isPrefixOf_iff_prefix

/-- Python's substring test, as an explicit decomposition of the haystack. -/
theorem contemSub_eq_true_iff {n : List Char} : ∀ {h : List Char},
    contemSub n h = true ↔ ∃ p q, h = p ++ n ++ q := by
  intro h
  induction h with
  | nil =>
    simp [contemSub, List.isEmpty_iff, eq_comm (a := ([] : List Char)), List.append_eq_nil]
  | cons a t ih =>
    simp only [contemSub, Bool.or_eq_true, isPrefixOf_eq_true_iff, ih]
    constructor
    · rintro (⟨r, hr⟩ | ⟨p, q, rfl⟩)
      · exact ⟨[], r, by simp [hr]⟩
      · exact ⟨a :: p, q, by simp⟩
    · rintro ⟨p, q, hpq⟩
      cases p with
      | nil =>
        left
        exact ⟨q, by simpa using hpq.symm⟩
      | cons x p' =>
        right
        obtain ⟨rfl, rfl⟩ : a = x ∧ t = p' ++ n ++ q := by
          simpa using hpq
        exact ⟨p', q, rfl⟩

/-- `guessRole` returns exactly the first column (in dataset order) whose
normalized name contains some keyword. -/
theorem guessRole_eq_some_iff (cols kws : List String) (c : String) :
    guessRole cols kws = some c ↔
      ∃ i, cols.get? i = some c ∧ roleMatches kws c = true ∧
        ∀ j, j < i → ∀ d, cols.get? j = some d → roleMatches kws d = false := by
  induction cols with
  | nil => simp [guessRole]
  | cons col rest ih =>
    by_cases hm : roleMatches kws col = true
    · simp only [guessRole, if_pos hm, Option.some.injEq]
      constructor
      · rintro rfl
        exact ⟨0, rfl, hm, fun j hj => absurd hj (Nat.not_lt_zero j)⟩
      · rintro ⟨i, hi, hc, hmin⟩
        cases i with
        | zero => simpa using hi
        | succ i' =>
          exact absurd hm (by simpa using hmin 0 (Nat.succ_pos i') col rfl)
    · simp only [guessRole, if_neg hm, ih]
      constructor
      · rintro ⟨i, hi, hc, hmin⟩
        refine ⟨i + 1, by simpa using hi, hc, ?_⟩
        intro j hj d hd
        cases j with
        | zero =>
          obtain rfl : col = d := by simpa using hd
          simpa using hm
        | succ j' =>
          exact hmin j' (by omega) d (by simpa using hd)
      · rintro ⟨i, hi, hc, hmin⟩
        cases i with
        | zero =>
          obtain rfl : col = c := by simpa using hi
          exact absurd hc hm
        | succ i' =>
          refine ⟨i', by simpa using hi, hc, ?_⟩
          intro j hj d hd
          exact hmin (j + 1) (by omega) d (by simpa using hd)

/-- A role with no matching column is left unset. -/
theorem guessRole_eq_none_iff (cols kws : List String) :
    guessRole cols kws = none ↔ ∀ c ∈ cols, roleMatches kws c = false := by
  induction cols with
  | nil => simp [guessRole]
  | cons col rest ih =>
    by_cases hm : roleMatches kws col = true
    · simp [guessRole, hm]
    · simp only [guessRole, if_neg hm, ih, List.mem_cons]
      constructor
      · rintro hall d (rfl | hd)
        · simpa using hm
        · exact hall d hd
      · intro hall d hd
        exact hall d (Or.inr hd)

/-- C2 (amended).  For each role, inference scans the dataset's columns in
order and, per column, the role's keywords in priority order; the role is
bound to the FIRST column whose normalized (ASCII-lower-cased,
non-alphanumeric-stripped) name contains some normalized keyword as a
substring, and a role with no matching column is left unset.  (The claim's
keyword-priority-first scan order is what fails; see the counterexample.) -/
theorem guessRole_caracterizacao (cols kws : List String) :
    (∀ col, roleMatches kws col = true ↔
      ∃ kw, kw ∈ kws ∧ ∃ p q, normalizeName col = p ++ normalizeName kw ++ q) ∧
    (∀ c, guessRole cols kws = some c ↔
      ∃ i, cols.get? i = some c ∧ roleMatches kws c = true ∧
        ∀ j, j < i → ∀ d, cols.get? j = some d → roleMatches kws d = false) ∧
    (guessRole cols kws = none ↔ ∀ c ∈ cols, roleMatches kws c = false) := by
  refine ⟨?_, fun c => guessRole_eq_some_iff cols kws c, guessRole_eq_none_iff cols kws⟩
  intro col
  simp [roleMatches, List.any_eq_true, contemSub_eq_true_iff]

/-- Collapsing preserves the head character. -/
theorem collapseRuns_cons (c : Char) : ∀ (a : Char) (t : List Char),
    ∃ u, collapseRuns c (a :: t) = a :: u := by
  intro a t
  induction t generalizing a with
  | nil => exact ⟨[], rfl⟩
  | cons b t' ih =>
    by_cases h : a = c ∧ b = c
    · obtain ⟨u, hu⟩ := ih b
      obtain ⟨ha, hb⟩ := h
      refine ⟨u, ?_⟩
      rw [show collapseRuns c (a :: b :: t') = collapseRuns c (b :: t') from by
            simp [collapseRuns, ha, hb], hu, ha, hb]
    · exact ⟨collapseRuns c (b :: t'), by simp [collapseRuns, h]⟩

/-- Unfolding equation for the doubled-character check on two heads. -/
theorem hasDoubled_cons_cons (d x y : Char) (t : List Char) :
    hasDoubled d (x :: y :: t) = ((decide (x = d) && decide (y = d)) || hasDoubled d (y :: t)) := rfl

/-- Unfolding equation for the left strip. -/
theorem lstrip_cons_eq (cs : List Char) (a : Char) (t : List Char) :
    lstrip cs (a :: t) = if cs.contains a then lstrip cs t else a :: t := rfl

/-- Unfolding equation for the right strip. -/
theorem rstrip_cons_match (cs : List Char) (a : Char) (t : List Char) :
    rstrip cs (a :: t) =
      match rstrip cs t with
      | [] => if cs.contains a then [] else [a]
      | b :: u => a :: b :: u := rfl

/-- Right strip when the tail strips away completely. -/
theorem rstrip_cons_of_nil {cs t : List Char} (hr : rstrip cs t = []) (a : Char) :
    rstrip cs (a :: t) = if cs.contains a then [] else [a] := by
  rw [rstrip_cons_match cs a t, hr]

/-- Right strip when the tail keeps something. -/
theorem rstrip_cons_of_cons {cs t : List Char} {b : Char} {u : List Char}
    (hr : rstrip cs t = b :: u) (a : Char) : rstrip cs (a :: t) = a :: b :: u := by
  rw [rstrip_cons_match cs a t, hr]

/-- A boolean pair test is false when the conjunction fails. -/
theorem decide_pair_false {a b c : Char} (h : ¬(a = c ∧ b = c)) :
    (decide (a = c) && decide (b = c)) = false := by
  by_cases h1 : a = c
  · by_cases h2 : b = c
    · exact absurd ⟨h1, h2⟩ h
    · simp [h2]
  · simp [h1]

/-- A doubled-character check ignores a removed head. -/
theorem hasDoubled_cons_false {d x : Char} {t : List Char}
    (h : hasDoubled d (x :: t) = false) : hasDoubled d t = false := by
  cases t with
  | nil => rfl
  | cons y u =>
    rw [hasDoubled_cons_cons] at h
    exact (Bool.or_eq_false_iff.mp h).2

/-- No doubled character on a list starting with two characters forbids
both being `d`. -/
theorem hasDoubled_pair_false {d x y : Char} {t : List Char}
    (h : hasDoubled d (x :: y :: t) = false) : ¬(x = d ∧ y = d) := by
  rw [hasDoubled_cons_cons] at h
  have h1 := (Bool.or_eq_false_iff.mp h).1
  rintro ⟨rfl, rfl⟩
  simp at h1

/-- After collapsing runs of `c`, no two adjacent `c` remain. -/
theorem hasDoubled_collapseRuns (c : Char) : ∀ l, hasDoubled c (collapseRuns c l) = false
  | [] => rfl
  | [_] => rfl
  | a :: b :: t => by
    by_cases h : a = c ∧ b = c
    · rw [show collapseRuns c (a :: b :: t) = collapseRuns c (b :: t) from by
            simp [collapseRuns, h]]
      exact hasDoubled_collapseRuns c (b :: t)
    · rw [show collapseRuns c (a :: b :: t) = a :: collapseRuns c (b :: t) from by
            simp [collapseRuns, h]]
      obtain ⟨u, hu⟩ := collapseRuns_cons c b t
      have hrec := hasDoubled_collapseRuns c (b :: t)
      rw [hu] at hrec ⊢
      rw [hasDoubled_cons_cons, hrec, Bool.or_false]
      exact decide_pair_false h

/-- Collapsing runs of one character cannot create a doubled occurrence of
any character. -/
theorem hasDoubled_collapseRuns_pres (c d : Char) : ∀ l, hasDoubled d l = false →
    hasDoubled d (collapseRuns c l) = false
  | [] => fun _ => rfl
  | [_] => fun _ => rfl
  | a :: b :: t => fun h => by
    have ht : hasDoubled d (b :: t) = false := hasDoubled_cons_false h
    have hpair := hasDoubled_pair_false h
    by_cases hc : a = c ∧ b = c
    · rw [show collapseRuns c (a :: b :: t) = collapseRuns c (b :: t) from by
            simp [collapseRuns, hc]]
      exact hasDoubled_collapseRuns_pres c d (b :: t) ht
    · rw [show collapseRuns c (a :: b :: t) = a :: collapseRuns c (b :: t) from by
            simp [collapseRuns, hc]]
      obtain ⟨u, hu⟩ := collapseRuns_cons c b t
      have hrec := hasDoubled_collapseRuns_pres c d (b :: t) ht
      rw [hu] at hrec ⊢
      rw [hasDoubled_cons_cons, hrec, Bool.or_false]
      exact decide_pair_false hpair

/-- Left stripping keeps a doubled-free list doubled-free. -/
theorem hasDoubled_lstrip (cs : List Char) (d : Char) : ∀ l, hasDoubled d l = false →
    hasDoubled d (lstrip cs l) = false
  | [] => fun _ => rfl
  | a :: t => fun h => by
    by_cases hc : cs.contains a = true
    · rw [lstrip_cons_eq, if_pos hc]
      exact hasDoubled_lstrip cs d t (hasDoubled_cons_false h)
    · rw [lstrip_cons_eq, if_neg hc]
      exact h

/-- The head surviving a left strip is not a stripped character. -/
theorem lstrip_head (cs : List Char) : ∀ (l : List Char) (a : Char) (t : List Char),
    lstrip cs l = a :: t → cs.contains a = false
  | [] => by intro a t h; cases h
  | x :: l' => by
    intro a t h
    by_cases hc : cs.contains x = true
    · rw [lstrip_cons_eq, if_pos hc] at h
      exact lstrip_head cs l' a t h
    · rw [lstrip_cons_eq, if_neg hc] at h
      obtain ⟨rfl, rfl⟩ : x = a ∧ l' = t := by simpa using h
      simpa using hc

/-- A right strip either erases everything or keeps the head. -/
theorem rstrip_cons (cs : List Char) (x : Char) (t : List Char) :
    rstrip cs (x :: t) = [] ∨ ∃ u, rstrip cs (x :: t) = x :: u := by
  cases hr : rstrip cs t with
  | nil =>
    rw [rstrip_cons_of_nil hr]
    by_cases hc : cs.contains x = true
    · left; rw [if_pos hc]
    · right; exact ⟨[], by rw [if_neg hc]⟩
  | cons b u => right; exact ⟨b :: u, rstrip_cons_of_cons hr x⟩

/-- Right stripping keeps a doubled-free list doubled-free. -/
theorem hasDoubled_rstrip (cs : List Char) (d : Char) : ∀ l, hasDoubled d l = false →
    hasDoubled d (rstrip cs l) = false
  | [] => fun _ => rfl
  | a :: t => fun h => by
    cases hr : rstrip cs t with
    | nil =>
      rw [rstrip_cons_of_nil hr]
      by_cases hc : cs.contains a = true
      · rw [if_pos hc]; rfl
      · rw [if_neg hc]; rfl
    | cons b u =>
      rw [rstrip_cons_of_cons hr]
      have hrec := hasDoubled_rstrip cs d t (hasDoubled_cons_false h)
      rw [hr] at hrec
      cases t with
      | nil => rw [show rstrip cs ([] : List Char) = [] from rfl] at hr; cases hr
      | cons y t' =>
        rcases rstrip_cons cs y t' with h0 | ⟨u', hu'⟩
        · rw [h0] at hr; cases hr
        · rw [hu'] at hr
          obtain ⟨rfl, rfl⟩ : y = b ∧ u' = u := by simpa using hr
          have hpair := hasDoubled_pair_false h
          rw [hasDoubled_cons_cons, hrec, Bool.or_false]
          exact decide_pair_false hpair

/-- The last character surviving a right strip is not a stripped one. -/
theorem rstrip_getLast (cs : List Char) : ∀ (l : List Char) (a : Char),
    (rstrip cs l).getLast? = some a → cs.contains a = false
  | [] => by intro a h; cases h
  | x :: t => by
    intro a h
    cases hr : rstrip cs t with
    | nil =>
      rw [rstrip_cons_of_nil hr] at h
      by_cases hc : cs.contains x = true
      · rw [if_pos hc] at h; cases h
      · rw [if_neg hc] at h
        obtain rfl : x = a := by simpa using h
        simpa using hc
    | cons b u =>
      rw [rstrip_cons_of_cons hr] at h
      rw [List.getLast?_cons_cons] at h
      rw [← hr] at h
      exact rstrip_getLast cs t a h

/-- Left stripping does not change the last surviving character. -/
theorem lstrip_getLast (cs : List Char) : ∀ (l : List Char) (a : Char),
    (lstrip cs l).getLast? = some a → l.getLast? = some a
  | [] => by intro a h; cases h
  | x :: t => by
    intro a h
    by_cases hc : cs.contains x = true
    · rw [lstrip_cons_eq, if_pos hc] at h
      have ht := lstrip_getLast cs t a h
      cases t with
      | nil => cases ht
      | cons y t' => rw [List.getLast?_cons_cons]; exact ht
    · rw [lstrip_cons_eq, if_neg hc] at h
      exact h

/-- Spelling out membership in the strip set of the normalization. -/
theorem separadores_contains_false {a : Char} (h : separadores.contains a = false) :
    a ≠ '_' ∧ a ≠ '-' ∧ a ≠ ' ' := by
  refine ⟨?_, ?_, ?_⟩ <;> rintro rfl <;> exact absurd h (by decide)

/-- The normalization output has no `_` or `-` runs and starts/ends with
none of `_`, `-`, space. -/
theorem normalizeNome_propriedades (raw : String) :
    hasDoubled '_' (normalizeNome raw).data = false ∧
    hasDoubled '-' (normalizeNome raw).data = false ∧
    (∀ a, (normalizeNome raw).data.head? = some a → a ≠ '_' ∧ a ≠ '-' ∧ a ≠ ' ') ∧
    (∀ a, (normalizeNome raw).data.getLast? = some a → a ≠ '_' ∧ a ≠ '-' ∧ a ≠ ' ') := by
  have base1 : hasDoubled '_' (collapseRuns '-' (collapseRuns '_' raw.data)) = false :=
    hasDoubled_collapseRuns_pres '-' '_' _ (hasDoubled_collapseRuns '_' raw.data)
  have base2 : hasDoubled '-' (collapseRuns '-' (collapseRuns '_' raw.data)) = false :=
    hasDoubled_collapseRuns '-' _
  have hdata : (normalizeNome raw).data =
      lstrip separadores (rstrip separadores (collapseRuns '-' (collapseRuns '_' raw.data))) := rfl
  refine ⟨?_, ?_, ?_, ?_⟩
  · rw [hdata]
    exact hasDoubled_lstrip _ _ _ (hasDoubled_rstrip _ _ _ base1)
  · rw [hdata]
    exact hasDoubled_lstrip _ _ _ (hasDoubled_rstrip _ _ _ base2)
  · intro a ha
    rw [hdata] at ha
    cases hl : lstrip separadores (rstrip separadores (collapseRuns '-' (collapseRuns '_' raw.data))) with
    | nil => rw [hl] at ha; cases ha
    | cons x u =>
      rw [hl] at ha
      obtain rfl : x = a := by simpa using ha
      exact separadores_contains_false (lstrip_head _ _ _ _ hl)
  · intro a ha
    rw [hdata] at ha
    exact separadores_contains_false (rstrip_getLast _ _ _ (lstrip_getLast _ _ _ ha))

/-- C6 (amended).  Every name a record synthesizes has no run of two or
more `_`, no run of two or more `-`, and neither starts nor ends with `_`,
`-` or a SPACE character.  (The claim's stronger "no leading/trailing
whitespace" fails: the final strip removes only `_`, `-` and space, so a
tab or newline at the edges survives — see the counterexample.) -/
theorem processRecord_sem_runs_e_bordas (m : Mapeamento) (t : Template) (row : Row)
    (nome : String) (dtO : Option DataHora)
    (h : processRecord m t row = .ok (nome, dtO)) :
    hasDoubled '_' nome.data = false ∧ hasDoubled '-' nome.data = false ∧
    (∀ a, nome.data.head? = some a → a ≠ '_' ∧ a ≠ '-' ∧ a ≠ ' ') ∧
    (∀ a, nome.data.getLast? = some a → a ≠ '_' ∧ a ≠ '-' ∧ a ≠ ' ') := by
  obtain ⟨raw, hraw⟩ : ∃ raw, nome = normalizeNome raw := by
    unfold processRecord at h
    cases hc : processCore m t row with
    | error e => rw [hc] at h; simp [Except.map] at h
    | ok p =>
      rw [hc] at h
      obtain ⟨h1, h2⟩ : normalizeNome p.1 = nome ∧ p.2 = dtO := by
        simpa [Except.map] using h
      exact ⟨p.1, h1.symm⟩
  subst hraw
  exact normalizeNome_propriedades raw

theorem processRecord_sem_runs_e_bordas_witness :
    hasDoubled '_' (String.data "a") = false ∧ hasDoubled '-' (String.data "a") = false ∧
    (∀ a, (String.data "a").head? = some a → a ≠ '_' ∧ a ≠ '-' ∧ a ≠ ' ') ∧
    (∀ a, (String.data "a").getLast? = some a → a ≠ '_' ∧ a ≠ '-' ∧ a ≠ ' ') :=
  processRecord_sem_runs_e_bordas mNA [.lit "a"] [] "a" none (by decide)

/-- Unfolding equation for the lexicographic comparison. -/
theorem charListLe_cons_cons (x y : Char) (xs ys : List Char) :
    charListLe (x :: xs) (y :: ys) =
      if x < y then true else if y < x then false else charListLe xs ys := rfl

/-- The lexicographic comparison is total. -/
theorem charListLe_total : ∀ a b : List Char, charListLe a b = true ∨ charListLe b a = true
  | [], _ => Or.inl rfl
  | _ :: _, [] => Or.inr rfl
  | x :: xs, y :: ys => by
    rcases lt_trichotomy x y with h | h | h
    · left; rw [charListLe_cons_cons, if_pos h]
    · subst h
      rw [charListLe_cons_cons, if_neg (lt_irrefl x), if_neg (lt_irrefl x),
        charListLe_cons_cons, if_neg (lt_irrefl x), if_neg (lt_irrefl x)]
      exact charListLe_total xs ys
    · right; rw [charListLe_cons_cons, if_pos h]

/-- The lexicographic comparison is transitive. -/
theorem charListLe_trans : ∀ a b c : List Char,
    charListLe a b = true → charListLe b c = true → charListLe a c = true
  | [], _, _ => fun _ _ => rfl
  | _ :: _, [], _ => fun h _ => by cases h
  | _ :: _, _ :: _, [] => fun _ h2 => by cases h2
  | x :: xs, y :: ys, z :: zs => fun h1 h2 => by
    rw [charListLe_cons_cons] at h1 h2 ⊢
    rcases lt_trichotomy x y with hxy | hxy | hxy
    · rcases lt_trichotomy y z with hyz | hyz | hyz
      · rw [if_pos (lt_trans hxy hyz)]
      · subst hyz; rw [if_pos hxy]
      · rw [if_neg (lt_asymm hyz), if_pos hyz] at h2; cases h2
    · subst hxy
      rcases lt_trichotomy x z with hxz | hxz | hxz
      · rw [if_pos hxz]
      · subst hxz
        rw [if_neg (lt_irrefl x), if_neg (lt_irrefl x)] at h1 h2 ⊢
        exact charListLe_trans xs ys zs h1 h2
      · rw [if_neg (lt_asymm hxz), if_pos hxz] at h2; cases h2
    · rw [if_neg (lt_asymm hxy), if_pos hxy] at h1; cases h1

/-- The raw-cell comparison is total. -/
theorem cellLe_total : ∀ a b : Cell, cellLe a b = true ∨ cellLe b a = true
  | .boolv x, .boolv y => by cases x <;> cases y <;> simp [cellLe]
  | .str x, .str y => charListLe_total x.data y.data
  | .boolv _, .str _ => Or.inl rfl
  | .str _, .boolv _ => Or.inr rfl

/-- The raw-cell comparison is transitive. -/
theorem cellLe_trans : ∀ a b c : Cell, cellLe a b = true → cellLe b c = true → cellLe a c = true
  | .boolv x, .boolv y, .boolv z => by cases x <;> cases y <;> cases z <;> simp [cellLe]
  | .boolv _, .boolv _, .str _ => fun _ _ => rfl
  | .boolv _, .str _, .boolv _ => fun _ h2 => absurd h2 Bool.false_ne_true
  | .boolv _, .str _, .str _ => fun _ _ => rfl
  | .str _, .boolv _, .boolv _ => fun h1 _ => absurd h1 Bool.false_ne_true
  | .str _, .boolv _, .str _ => fun h1 _ => absurd h1 Bool.false_ne_true
  | .str _, .str _, .boolv _ => fun _ h2 => absurd h2 Bool.false_ne_true
  | .str x, .str y, .str z => charListLe_trans x.data y.data z.data

/-- Inserting into the sorted tail is a permutation of consing. -/
theorem insSorted_perm (le : α → α → Bool) (a : α) :
    ∀ l : List α, (insSorted le a l).Perm (a :: l)
  | [] => List.Perm.refl _
  | b :: t => by
    by_cases h : le a b = true
    · rw [show insSorted le a (b :: t) = a :: b :: t from by simp [insSorted, h]]
    · rw [show insSorted le a (b :: t) = b :: insSorted le a t from by simp [insSorted, h]]
      exact ((insSorted_perm le a t).cons b).trans (List.Perm.swap a b t)

/-- The insertion sort permutes its input. -/
theorem ordena_perm (le : α → α → Bool) : ∀ l : List α, (ordena le l).Perm l
  | [] => List.Perm.refl _
  | a :: t => (insSorted_perm le a (ordena le t)).trans ((ordena_perm le t).cons a)

/-- Inserting into a sorted list keeps it sorted. -/
theorem insSorted_pairwise (le : α → α → Bool)
    (total : ∀ a b, le a b = true ∨ le b a = true)
    (trans : ∀ a b c, le a b = true → le b c = true → le a c = true)
    (a : α) : ∀ l : List α, l.Pairwise (fun x y => le x y = true) →
      (insSorted le a l).Pairwise (fun x y => le x y = true)
  | [] => fun _ => by simp [insSorted]
  | b :: t => fun hp => by
    obtain ⟨hb, ht⟩ := List.pairwise_cons.mp hp
    by_cases h : le a b = true
    · rw [show insSorted le a (b :: t) = a :: b :: t from by simp [insSorted, h]]
      refine List.pairwise_cons.mpr ⟨?_, hp⟩
      intro y hy
      rcases List.mem_cons.mp hy with rfl | hyt
      · exact h
      · exact trans a b y h (hb y hyt)
    · rw [show insSorted le a (b :: t) = b :: insSorted le a t from by simp [insSorted, h]]
      refine List.pairwise_cons.mpr ⟨?_, insSorted_pairwise le total trans a t ht⟩
      intro y hy
      have hmem := (insSorted_perm le a t).mem_iff.mp hy
      rcases List.mem_cons.mp hmem with hya | hyt
      · rcases total a b with h1 | h1
        · exact absurd h1 h
        · rw [hya]; exact h1
      · exact hb y hyt

/-- The insertion sort sorts, for a total transitive comparison. -/
theorem ordena_pairwise (le : α → α → Bool)
    (total : ∀ a b, le a b = true ∨ le b a = true)
    (trans : ∀ a b c, le a b = true → le b c = true → le a c = true) :
    ∀ l : List α, (ordena le l).Pairwise (fun x y => le x y = true)
  | [] => List.Pairwise.nil
  | a :: t => insSorted_pairwise le total trans a (ordena le t) (ordena_pairwise le total trans t)

/-- Unfolding equation for the column extraction. -/
theorem taggRows_cons_eq (p : Nat × Row) (rest : List (Nat × Row)) (col : String) :
    taggRows (p :: rest) col =
      match rowGet p.2 col with
      | .error e => .error e
      | .ok c =>
        match taggRows rest col with
        | .error e => .error e
        | .ok t => .ok ((p, c) :: t) := rfl

/-- The extracted pairs project back onto the input rows. -/
theorem taggRows_map_fst : ∀ (rows : List (Nat × Row)) (col : String)
    (tagged : List ((Nat × Row) × Cell)), taggRows rows col = .ok tagged →
    tagged.map Prod.fst = rows
  | [], _, tagged => fun h => by
    obtain rfl : ([] : List ((Nat × Row) × Cell)) = tagged := by simpa [taggRows] using h
    rfl
  | p :: rest, col, tagged => fun h => by
    rw [taggRows_cons_eq] at h
    cases hg : rowGet p.2 col with
    | error e => rw [hg] at h; cases h
    | ok c =>
      rw [hg] at h
      cases ht : taggRows rest col with
      | error e => rw [ht] at h; cases h
      | ok tl =>
        rw [ht] at h
        obtain rfl : (p, c) :: tl = tagged := by simpa using h
        simp [taggRows_map_fst rest col tl ht]

/-- Every extracted pair records its own row's cell in the sort column. -/
theorem taggRows_mem : ∀ (rows : List (Nat × Row)) (col : String)
    (tagged : List ((Nat × Row) × Cell)), taggRows rows col = .ok tagged →
    ∀ q ∈ tagged, rowGet q.1.2 col = .ok q.2
  | [], _, tagged => fun h => by
    obtain rfl : ([] : List ((Nat × Row) × Cell)) = tagged := by simpa [taggRows] using h
    intro q hq
    cases hq
  | p :: rest, col, tagged => fun h => by
    rw [taggRows_cons_eq] at h
    cases hg : rowGet p.2 col with
    | error e => rw [hg] at h; cases h
    | ok c =>
      rw [hg] at h
      cases ht : taggRows rest col with
      | error e => rw [ht] at h; cases h
      | ok tl =>
        rw [ht] at h
        obtain rfl : (p, c) :: tl = tagged := by simpa using h
        intro q hq
        rcases List.mem_cons.mp hq with rfl | hq'
        · exact hg
        · exact taggRows_mem rest col tl ht q hq'

/-- C3 (amended).  When `sort_values` succeeds, the output is a permutation
of the input ordered ascending by the RAW start-cell values under the
element-wise comparison (strings lexicographically) — the cells are never
parsed as timestamps, and no stability guarantee about the parsed
chronology holds (see the counterexample for the chronological claim). -/
theorem sortValues_perm_ordenado (rows : List (Nat × Row)) (col : String)
    (out : List (Nat × Row)) (h : sortValues rows col = .ok out) :
    out.Perm rows ∧
    out.Pairwise (fun a b => ∀ ca cb, rowGet a.2 col = .ok ca → rowGet b.2 col = .ok cb →
      cellLe ca cb = true) := by
  cases ht : taggRows rows col with
  | error e =>
    rw [show sortValues rows col = .error e from by unfold sortValues; rw [ht]] at h
    cases h
  | ok tagged =>
    replace h : (if ((tagged.any fun q => isStrCell q.2) &&
          (tagged.any fun q => isBoolCell q.2)) = true then
        (Except.error "TypeError: '<' not supported between instances of 'str' and 'bool'" :
          Except String (List (Nat × Row)))
      else .ok ((ordena (fun a b => cellLe a.2 b.2) tagged).map Prod.fst)) = .ok out := by
      have he : sortValues rows col =
          (if ((tagged.any fun q => isStrCell q.2) &&
              (tagged.any fun q => isBoolCell q.2)) = true then
            (Except.error "TypeError: '<' not supported between instances of 'str' and 'bool'" :
              Except String (List (Nat × Row)))
          else .ok ((ordena (fun a b => cellLe a.2 b.2) tagged).map Prod.fst)) := by
        unfold sortValues
        rw [ht]
      rw [he] at h
      exact h
    by_cases hmix : ((tagged.any fun q => isStrCell q.2) && (tagged.any fun q => isBoolCell q.2)) = true
    · rw [if_pos hmix] at h; cases h
    · rw [if_neg hmix] at h
      obtain rfl : (ordena (fun a b => cellLe a.2 b.2) tagged).map Prod.fst = out := by
        simpa using h
      have hperm : (ordena (fun a b : (Nat × Row) × Cell => cellLe a.2 b.2) tagged).Perm tagged :=
        ordena_perm _ tagged
      constructor
      · have h1 := hperm.map Prod.fst
        rw [taggRows_map_fst rows col tagged ht] at h1
        exact h1
      · have hpw := ordena_pairwise (fun a b : (Nat × Row) × Cell => cellLe a.2 b.2)
          (fun a b => cellLe_total a.2 b.2)
          (fun a b c => cellLe_trans a.2 b.2 c.2) tagged
        rw [List.pairwise_map]
        refine hpw.imp_of_mem ?_
        intro q r hq hr hle ca cb hca hcb
        have hq2 := taggRows_mem rows col tagged ht q (hperm.mem_iff.mp hq)
        have hr2 := taggRows_mem rows col tagged ht r (hperm.mem_iff.mp hr)
        rw [hq2] at hca
        rw [hr2] at hcb
        obtain rfl : q.2 = ca := by simpa using hca
        obtain rfl : r.2 = cb := by simpa using hcb
        exact hle

theorem sortValues_perm_ordenado_witness :
    ([((0 : Nat), [("c", Cell.str "a")])] : List (Nat × Row)).Perm
      [(0, [("c", Cell.str "a")])] ∧
    ([((0 : Nat), [("c", Cell.str "a")])] : List (Nat × Row)).Pairwise
      (fun a b => ∀ ca cb, rowGet a.2 "c" = .ok ca → rowGet b.2 "c" = .ok cb →
        cellLe ca cb = true) :=
  sortValues_perm_ordenado [(0, [("c", Cell.str "a")])] "c" [(0, [("c", Cell.str "a")])]
    (by decide)

/-- Shape reading of the drive-letter/UNC boolean test. -/
theorem drive_unc_iff (l : List Char) :
    (driveMatch l || uncMatch l) = true ↔
      (∃ a b r, l = a :: ':' :: b :: r ∧
        (('a' ≤ a ∧ a ≤ 'z') ∨ ('A' ≤ a ∧ a ≤ 'Z')) ∧ (b = '\\' ∨ b = '/')) ∨
      (∃ r, l = '\\' :: '\\' :: r) := by
  match l with
  | [] => simp [driveMatch, uncMatch]
  | [a] => simp [driveMatch, uncMatch]
  | [a, b] =>
    simp only [driveMatch, uncMatch, Bool.false_or, Bool.and_eq_true, decide_eq_true_eq]
    constructor
    · rintro ⟨rfl, rfl⟩
      exact Or.inr ⟨[], rfl⟩
    · rintro (⟨a', b', r, h, _⟩ | ⟨r, h⟩)
      · exact absurd (congrArg List.length h) (by simp)
      · obtain ⟨rfl, rfl, rfl⟩ : a = '\\' ∧ b = '\\' ∧ r = [] := by
          simpa using h
        exact ⟨rfl, rfl⟩
  | a :: b :: c :: r =>
    simp only [driveMatch, uncMatch, letraUnidade, Bool.or_eq_true, Bool.and_eq_true,
      decide_eq_true_eq]
    constructor
    · rintro (⟨⟨hl, hb⟩, hc⟩ | ⟨rfl, rfl⟩)
      · exact Or.inl ⟨a, c, r, by rw [hb], hl, hc⟩
      · exact Or.inr ⟨c :: r, rfl⟩
    · rintro (⟨a', b', r', h, hl, hc⟩ | ⟨r', h⟩)
      · obtain ⟨rfl, rfl, rfl, rfl⟩ : a' = a ∧ b = ':' ∧ b' = c ∧ r' = r := by
          have := h.symm
          simpa [and_comm, eq_comm] using this
        exact Or.inl ⟨⟨hl, rfl⟩, hc⟩
      · obtain ⟨rfl, rfl⟩ : a = '\\' ∧ b = '\\' := by
          have := h
          simp at this
          exact ⟨this.1, this.2.1⟩
        exact Or.inr ⟨rfl, rfl⟩

/-- C8 (amended).  The program's path cleaning strips surrounding
whitespace, then ALL leading/trailing double quotes, then ALL
leading/trailing single quotes (and the validator strips double quotes once
more); the result is accepted exactly when it starts with an ASCII letter,
a colon and a slash or backslash, or with two backslashes.  The six example
verdicts of the claim all hold.  (Only "one layer" of quote stripping fails
— see the counterexample.) -/
theorem validaCaminho_caracterizacao :
    (∀ s : String, validaCaminho s = true ↔
      (∃ a b r, (pyStrip ['"'] (caminhoLimpo s)).data = a :: ':' :: b :: r ∧
        (('a' ≤ a ∧ a ≤ 'z') ∨ ('A' ≤ a ∧ a ≤ 'Z')) ∧ (b = '\\' ∨ b = '/')) ∨
      (∃ r, (pyStrip ['"'] (caminhoLimpo s)).data = '\\' :: '\\' :: r)) ∧
    validaCaminho "C:\\Reports" = true ∧
    validaCaminho "C:/Reports" = true ∧
    validaCaminho "\\\\server\\share\\folder" = true ∧
    validaCaminho "Reports" = false ∧
    validaCaminho "" = false ∧
    validaCaminho "/home/reports" = false := by
  refine ⟨?_, by decide, by decide, by decide, by decide, by decide, by decide⟩
  intro s
  exact drive_unc_iff (pyStrip ['"'] (caminhoLimpo s)).data
